import Mathlib

/-
Verification of the peer-sharing DNS resolution cache (server.go).

The Go program is shallowly embedded: a `World` holds the clients, the
groups and the snapshot-file system; Go maps (`Client.Cache`, and the
JSON object in a snapshot file) are association lists with unique keys;
Go `time.Time` / `time.Duration` values are integers (nanoseconds, as in
Go); pointer identity of clients and groups is list-index identity.
`Client.QueryDNS` is embedded as a pure function from a world to a
result, a new world and an instrumentation log recording how often the
upstream resolver was invoked, which peer caches were locked, and how
often the snapshot was saved.
-/

namespace DNS

/-- Go `time.Hour` as a `time.Duration` value: 3.6e12 nanoseconds. -/
def timeHour : Int := 3600000000000

/-- `DNSResponse` from server.go: an IP address and the observation time. -/
structure DNSResponse where
  ipAddress : String
  timestamp : Int
deriving DecidableEq, Repr

/-- A Go `map[string]α` embedded as an association list with unique keys. -/
abbrev AssocMap (α : Type) := List (String × α)

/-- Map lookup `m[k]`: the value at key `k`, if present. -/
def lookupA {α : Type} : AssocMap α → String → Option α
  | [], _ => none
  | (k, v) :: rest, d => if k = d then some v else lookupA rest d

/-- Remove every entry with key `k` (a well-formed map has at most one). -/
def removeA {α : Type} : AssocMap α → String → AssocMap α
  | [], _ => []
  | (k, v) :: rest, d => if k = d then removeA rest d else (k, v) :: removeA rest d

/-- Map assignment `m[k] = v`. -/
def insertA {α : Type} (m : AssocMap α) (k : String) (v : α) : AssocMap α :=
  (k, v) :: removeA m k

/-- The keys of the map are pairwise distinct (intrinsic to a Go map). -/
def mapWF {α : Type} (m : AssocMap α) : Prop := (m.map Prod.fst).Nodup

/-- `Client.Cache`: domain name to cached DNS response. -/
abbrev Cache := AssocMap DNSResponse

/-- Contents of a snapshot file: a JSON-decodable entry list, or bytes
`json.Unmarshal` rejects. -/
inductive FileData where
  | valid (entries : List (String × DNSResponse))
  | corrupt
deriving DecidableEq, Repr

/-- The file system holding the per-client snapshot files, by file name. -/
abbrev FileSys := AssocMap FileData

/-- `Client` from server.go.  `group` is the `Group` back-pointer as an
index into the world group list (`none` is a nil pointer). -/
structure Client where
  id : String
  group : Option Nat
  cache : Cache
  server : String
  cacheFile : String
deriving DecidableEq, Repr

/-- `Group` from server.go; members are client indices (pointers). -/
structure Group where
  id : String
  clients : List Nat
deriving DecidableEq, Repr

/-- The mutable state QueryDNS and AddClientToGroup touch: all clients,
all groups (the GroupManager list), and the snapshot files. -/
structure World where
  clients : List Client
  groups : List Group
  files : FileSys
deriving DecidableEq, Repr

/-- Instrumentation of one QueryDNS call: how many times the upstream
resolver ran, which peers had their cache lock taken (in order), and how
many times `saveCache` ran. -/
structure QueryLog where
  upstreamCalls : Nat
  peersAccessed : List Nat
  saves : Nat
deriving DecidableEq, Repr

/-- The freshness test of QueryDNS: `time.Since(ts) < time.Hour`. -/
def isFresh (now ts : Int) : Bool := decide (now - ts < timeHour)

/-- Insert one entry into a key-sorted entry list (used by `marshalCache`). -/
def sortInsert (p : String × DNSResponse) :
    List (String × DNSResponse) → List (String × DNSResponse)
  | [] => [p]
  | q :: rest => if p.1 ≤ q.1 then p :: q :: rest else q :: sortInsert p rest

/-- `json.Marshal` of a Go map: the entries, sorted by key. -/
def marshalCache : Cache → List (String × DNSResponse)
  | [] => []
  | p :: rest => sortInsert p (marshalCache rest)

/-- `json.Unmarshal` of an entry list into an existing map: each decoded
key/value pair is assigned into the map in order. -/
def unmarshalInto (c : Cache) (data : List (String × DNSResponse)) : Cache :=
  data.foldl (fun m p => insertA m p.1 p.2) c

/-- `Client.loadCache`: if the snapshot file exists and decodes, merge
its entries into the cache; a missing or corrupt file changes nothing. -/
def loadCacheClient (files : FileSys) (c : Client) : Client :=
  match lookupA files c.cacheFile with
  | some (FileData.valid data) => { c with cache := unmarshalInto c.cache data }
  | _ => c

/-- `NewClient`: fresh client with empty cache and snapshot file name
`id + "_cache.json"`, then `loadCache`. -/
def newClient (files : FileSys) (id server : String) : Client :=
  loadCacheClient files
    { id := id, group := none, cache := [], server := server,
      cacheFile := id ++ "_cache.json" }

/-- `Client.saveCache`: marshal the cache and write it to the snapshot
file; `writeOk = false` models a failed `WriteFile` (its error is
dropped by the Go code, so the file is simply not replaced). -/
def saveCacheFiles (files : FileSys) (c : Client) (writeOk : Bool) : FileSys :=
  if writeOk then insertA files c.cacheFile (FileData.valid (marshalCache c.cache))
  else files

/-- Replace the element at one position of a list, leaving others alone. -/
def updateAt {α : Type} : List α → Nat → (α → α) → List α
  | [], _, _ => []
  | a :: rest, 0, f => f a :: rest
  | a :: rest, Nat.succ n, f => a :: updateAt rest n f

/-- Store an updated client back into the world (writing through the
`*Client` pointer). -/
def setClient (w : World) (ci : Nat) (c : Client) : World :=
  { w with clients := updateAt w.clients ci (fun _ => c) }

/-- `saveCache` at world level. -/
def saveCacheW (w : World) (c : Client) (writeOk : Bool) : World :=
  { w with files := saveCacheFiles w.files c writeOk }

/-- The local-hit test of QueryDNS: the entry for `domain`, provided it
exists and is fresh. -/
def localFresh (c : Client) (domain : String) (now : Int) : Option DNSResponse :=
  match lookupA c.cache domain with
  | some r => if isFresh now r.timestamp then some r else none
  | none => none

/-- The peer loop of QueryDNS over the member list: skip self, lock each
other peer in turn and look `domain` up; stop at the first fresh entry.
Returns the hit (if any) together with the peers actually locked, or
`none` if a member pointer is dangling (a Go panic). -/
def peerSweep (w : World) (ci : Nat) (domain : String) (now : Int) :
    List Nat → Option (Option DNSResponse × List Nat)
  | [] => some (none, [])
  | pj :: rest =>
    if pj = ci then peerSweep w ci domain now rest
    else
      match w.clients.get? pj with
      | none => none
      | some peer =>
        match lookupA peer.cache domain with
        | some r =>
          if isFresh now r.timestamp then some (some r, [pj])
          else Option.map (fun pr => (pr.1, pj :: pr.2)) (peerSweep w ci domain now rest)
        | none => Option.map (fun pr => (pr.1, pj :: pr.2)) (peerSweep w ci domain now rest)

/-- `Client.queryDNSResolver`: `net.LookupHost` (the parameter
`resolver`) either fails, returns no address, or returns a first IP. -/
def queryDNSResolver (resolver : String → Except String (List String))
    (domain : String) : Except String String :=
  match resolver domain with
  | Except.error e => Except.error ("failed to resolve domain " ++ domain ++ ": " ++ e)
  | Except.ok [] => Except.error ("no A record found for domain " ++ domain)
  | Except.ok (ip :: _) => Except.ok ip

/-- `Client.QueryDNS` on client `ci` of world `w` at time `now`: local
fresh hit, else peer sweep, else upstream; `none` models a nil-pointer
panic (dangling client or group pointer). -/
def queryDNS (resolver : String → Except String (List String)) (writeOk : Bool)
    (now : Int) (w : World) (ci : Nat) (domain : String) :
    Option (Except String String × World × QueryLog) :=
  match w.clients.get? ci with
  | none => none
  | some c =>
    match localFresh c domain now with
    | some r => some (Except.ok r.ipAddress, w, ⟨0, [], 0⟩)
    | none =>
      match c.group with
      | none => none
      | some gi =>
        match w.groups.get? gi with
        | none => none
        | some g =>
          match peerSweep w ci domain now g.clients with
          | none => none
          | some (some r, acc) =>
            let c2 := { c with cache := insertA c.cache domain r }
            some (Except.ok r.ipAddress, saveCacheW (setClient w ci c2) c2 writeOk,
              ⟨0, acc, 1⟩)
          | some (none, acc) =>
            match queryDNSResolver resolver domain with
            | Except.error e => some (Except.error e, w, ⟨1, acc, 0⟩)
            | Except.ok ip =>
              let c2 := { c with cache := insertA c.cache domain (DNSResponse.mk ip now) }
              some (Except.ok ip, saveCacheW (setClient w ci c2) c2 writeOk,
                ⟨1, acc, 1⟩)

/-- `GroupSize` from server.go. -/
def groupSize : Nat := 15

/-- The scan loop of `AddClientToGroup`: append `ci` to the first group
with space, returning the new group list and the index joined; `none`
if every group is full. -/
def insertFirstFit (ci : Nat) : List Group → Option (List Group × Nat)
  | [] => none
  | g :: rest =>
    if g.clients.length < groupSize then
      some ({ g with clients := g.clients ++ [ci] } :: rest, 0)
    else
      Option.map (fun p => (g :: p.1, p.2 + 1)) (insertFirstFit ci rest)

/-- `GroupManager.AddClientToGroup`: first-fit into an existing group,
else a new group `Group-(n+1)` holding only `ci`; either way the client
Group back-pointer is set to the group joined. -/
def addClientToGroup (w : World) (ci : Nat) : World :=
  match insertFirstFit ci w.groups with
  | some (gs, gi) =>
    { w with groups := gs,
             clients := updateAt w.clients ci (fun c => { c with group := some gi }) }
  | none =>
    { w with
      groups := w.groups ++
        [{ id := "Group-" ++ toString (w.groups.length + 1), clients := [ci] }],
      clients := updateAt w.clients ci (fun c => { c with group := some w.groups.length }) }

/-- Total number of occurrences of client `ci` across all member lists. -/
def membershipCount (gs : List Group) (ci : Nat) : Nat :=
  (gs.map (fun g => g.clients.count ci)).sum

/-- Left-biased choice on options (Go: first successful map hit wins). -/
def optOr {α : Type} : Option α → Option α → Option α
  | some a, _ => some a
  | none, b => b

/-- What a QueryDNS call leaves in memory: its result, the clients, the
groups and the log — everything except the snapshot files on disk. -/
def memoryView : Option (Except String String × World × QueryLog) →
    Option (Except String String × List Client × List Group × QueryLog)
  | none => none
  | some (res, w, log) => some (res, w.clients, w.groups, log)

/-- Member `pj` yields no fresh answer at this point of the sweep: it is
the querying client itself, or a valid peer whose cached entry for
`domain` (if any) is stale. -/
def peerMisses (w : World) (ci : Nat) (domain : String) (now : Int) (pj : Nat) : Prop :=
  pj = ci ∨ ∃ peer, w.clients.get? pj = some peer ∧
    ∀ r, lookupA peer.cache domain = some r → isFresh now r.timestamp = false

/-- Frame of one QueryDNS call on client `ci`: groups untouched, other
clients untouched, the queried client keeps every field but its cache,
and only its own snapshot file may change. -/
def frameConclusion (w w2 : World) (ci : Nat) : Prop :=
  w2.groups = w.groups
  ∧ (∀ j, j ≠ ci → w2.clients.get? j = w.clients.get? j)
  ∧ ∀ c, w.clients.get? ci = some c →
      (∃ c2, w2.clients.get? ci = some c2 ∧ c2.id = c.id ∧ c2.group = c.group
        ∧ c2.server = c.server ∧ c2.cacheFile = c.cacheFile)
      ∧ ∀ fn, fn ≠ c.cacheFile → lookupA w2.files fn = lookupA w.files fn

/-- First-fit shape of a group list: every group but the last is exactly
full, and no group exceeds capacity. -/
def sizesInv (gs : List Group) : Prop :=
  (∀ g ∈ gs.dropLast, g.clients.length = groupSize) ∧
    ∀ g ∈ gs, g.clients.length ≤ groupSize

/-- A plain client record for concrete scenarios. -/
def mkClient (i : Nat) : Client :=
  ⟨"c" ++ toString i, none, [], "8.8.8.8", "c" ++ toString i ++ "_cache.json"⟩

/-- Fresh cached answer used by the local-hit scenario. -/
def exResponse : DNSResponse := ⟨"1.1.1.1", 100⟩

/-- Client whose cache holds a fresh entry for `a.com`. -/
def exClient0 : Client := ⟨"c0", some 0, [("a.com", exResponse)], "8.8.8.8", "c0_cache.json"⟩

/-- One-client world for the local-hit scenario. -/
def exWorldA : World := ⟨[exClient0], [⟨"Group-1", [0]⟩], []⟩

/-- An upstream resolver that always fails. -/
def exResolverFail : String → Except String (List String) := fun _ => Except.error "boom"

/-- An upstream resolver that always answers `9.9.9.9`. -/
def exResolverOk : String → Except String (List String) := fun _ => Except.ok ["9.9.9.9"]

/-- Client holding a stale entry for `d.com` (observed at time 0). -/
def exStaleClient : Client :=
  ⟨"c0", some 0, [("d.com", ⟨"1.2.3.4", 0⟩)], "8.8.8.8", "c0_cache.json"⟩

/-- One-client world for the stale-entry / upstream-failure scenario. -/
def exWorldStale : World := ⟨[exStaleClient], [⟨"Group-1", [0]⟩], []⟩

/-- Client with an empty cache. -/
def exEmptyClient : Client := ⟨"c0", some 0, [], "8.8.8.8", "c0_cache.json"⟩

/-- Peer client whose cache holds a fresh entry for `a.com` observed at 50. -/
def exPeerClient : Client :=
  ⟨"c1", some 0, [("a.com", ⟨"2.2.2.2", 50⟩)], "8.8.8.8", "c1_cache.json"⟩

/-- Two-client world for the peer-propagation scenario. -/
def exWorldP : World := ⟨[exEmptyClient, exPeerClient], [⟨"Group-1", [0, 1]⟩], []⟩

/-- World with `GroupSize * 2 + 3` clients and no groups yet. -/
def exWorld33 : World := ⟨(List.range (groupSize * 2 + 3)).map mkClient, [], []⟩

/-- The startup assignment of all `GroupSize * 2 + 3` clients. -/
def exFold33 : World := (List.range (groupSize * 2 + 3)).foldl addClientToGroup exWorld33

/-- World with `GroupSize` clients and no groups yet. -/
def exWorld15 : World := ⟨(List.range groupSize).map mkClient, [], []⟩

/-- Assignment sequence that re-adds client 0 after its group fills. -/
def exDupCis : List Nat := List.range groupSize ++ [0]

/-- Two-client world with no groups yet. -/
def exWorldW7 : World := ⟨[mkClient 0, mkClient 1], [], []⟩

/-- Two-entry cache for the persistence round-trip scenario. -/
def exRTCache : Cache := [("a.com", ⟨"1.2.3.4", 1⟩), ("b.com", ⟨"5.6.7.8", 2⟩)]

/-- Client owning `exRTCache`. -/
def exRTClient : Client := ⟨"x", none, exRTCache, "8.8.8.8", "x_cache.json"⟩

/-- A freshly constructed client with the same snapshot file and an
empty cache. -/
def exRTFresh : Client := ⟨"x", none, [], "8.8.8.8", "x_cache.json"⟩

/- ===================== association-map lemmas ===================== -/

theorem lookupA_removeA_ne {α : Type} (m : AssocMap α) (rk d : String) (h : rk ≠ d) :
    lookupA (removeA m rk) d = lookupA m d := by
  induction m with
  | nil => rfl
  | cons p rest ih =>
    obtain ⟨k, v⟩ := p
    by_cases hk : k = rk
    · subst hk
      simp [removeA, lookupA, h, ih]
    · by_cases hd : k = d
      · subst hd
        simp [removeA, lookupA, hk, ih]
      · simp [removeA, lookupA, hk, hd, ih]

theorem lookupA_insert_self {α : Type} (m : AssocMap α) (k : String) (v : α) :
    lookupA (insertA m k v) k = some v := by
  simp [insertA, lookupA]

theorem lookupA_insert_ne {α : Type} (m : AssocMap α) (k d : String) (v : α) (h : k ≠ d) :
    lookupA (insertA m k v) d = lookupA m d := by
  simp only [insertA, lookupA]
  rw [if_neg h, lookupA_removeA_ne m k d h]

theorem optOr_none_right {α : Type} (x : Option α) : optOr x none = x := by
  cases x <;> rfl

theorem optOr_assoc {α : Type} (x y z : Option α) :
    optOr (optOr x y) z = optOr x (optOr y z) := by
  cases x <;> cases y <;> rfl

theorem lookupA_append {α : Type} (m1 m2 : AssocMap α) (d : String) :
    lookupA (m1 ++ m2) d = optOr (lookupA m1 d) (lookupA m2 d) := by
  induction m1 with
  | nil => rfl
  | cons p rest ih =>
    obtain ⟨k, v⟩ := p
    by_cases hd : k = d <;> simp [lookupA, hd, ih, optOr]

theorem lookupA_insert_split {α : Type} (m : AssocMap α) (k d : String) (v : α) :
    lookupA (insertA m k v) d = optOr (lookupA [(k, v)] d) (lookupA m d) := by
  by_cases hd : k = d
  · subst hd; simp [lookupA_insert_self, lookupA, optOr]
  · rw [lookupA_insert_ne m k d v hd]
    simp [lookupA, hd, optOr]

theorem unmarshalInto_lookup (l : List (String × DNSResponse)) (m : Cache) (d : String) :
    lookupA (unmarshalInto m l) d = optOr (lookupA l.reverse d) (lookupA m d) := by
  induction l generalizing m with
  | nil => simp [unmarshalInto, lookupA, optOr]
  | cons p rest ih =>
    have hstep : unmarshalInto m (p :: rest) = unmarshalInto (insertA m p.1 p.2) rest := rfl
    rw [hstep, ih, List.reverse_cons, lookupA_append, optOr_assoc,
      lookupA_insert_split m p.1 d p.2]

theorem lookupA_eq_none_iff {α : Type} (m : AssocMap α) (d : String) :
    lookupA m d = none ↔ d ∉ m.map Prod.fst := by
  induction m with
  | nil => simp [lookupA]
  | cons p rest ih =>
    obtain ⟨k, v⟩ := p
    by_cases hd : k = d
    · subst hd
      simp [lookupA]
    · simp [lookupA, hd, ih, Ne.symm hd]

theorem lookupA_mem {α : Type} {m : AssocMap α} {d : String} {v : α}
    (h : lookupA m d = some v) : (d, v) ∈ m := by
  induction m with
  | nil => simp [lookupA] at h
  | cons p rest ih =>
    obtain ⟨k, w⟩ := p
    by_cases hd : k = d
    · subst hd
      simp [lookupA] at h
      subst h
      exact List.mem_cons_self _ _
    · simp only [lookupA] at h
      rw [if_neg hd] at h
      exact List.mem_cons_of_mem _ (ih h)

theorem mem_lookupA {α : Type} {m : AssocMap α} (hwf : mapWF m) {d : String} {v : α}
    (h : (d, v) ∈ m) : lookupA m d = some v := by
  induction m with
  | nil => simp at h
  | cons p rest ih =>
    obtain ⟨k, w⟩ := p
    have hwf2 : mapWF rest := (List.nodup_cons.mp hwf).2
    by_cases hd : k = d
    · subst hd
      rcases List.mem_cons.mp h with heq | hmem
      · have hv : v = w := (Prod.ext_iff.mp heq).2
        simp [lookupA, hv]
      · exfalso
        have hk : k ∈ rest.map Prod.fst := List.mem_map.mpr ⟨(k, v), hmem, rfl⟩
        exact (List.nodup_cons.mp hwf).1 hk
    · simp only [lookupA]
      rw [if_neg hd]
      rcases List.mem_cons.mp h with heq | hmem
      · exact absurd (Prod.ext_iff.mp heq).1.symm hd
      · exact ih hwf2 hmem

theorem lookupA_perm {α : Type} {m1 m2 : AssocMap α} (hp : m1.Perm m2) (hwf : mapWF m2)
    (d : String) : lookupA m1 d = lookupA m2 d := by
  cases h : lookupA m1 d with
  | none =>
    have h1 := (lookupA_eq_none_iff m1 d).mp h
    have h2 : d ∉ m2.map Prod.fst := fun hd =>
      h1 (((hp.map Prod.fst).mem_iff).mpr hd)
    exact ((lookupA_eq_none_iff m2 d).mpr h2).symm
  | some v =>
    exact (mem_lookupA hwf (hp.mem_iff.mp (lookupA_mem h))).symm

theorem sortInsert_perm (p : String × DNSResponse) (l : List (String × DNSResponse)) :
    (sortInsert p l).Perm (p :: l) := by
  induction l with
  | nil => exact List.Perm.refl _
  | cons q rest ih =>
    by_cases h : p.1 ≤ q.1
    · simp only [sortInsert, if_pos h]
      exact List.Perm.refl _
    · simp only [sortInsert, if_neg h]
      exact (ih.cons q).trans (List.Perm.swap p q rest)

theorem marshalCache_perm (c : Cache) : (marshalCache c).Perm c := by
  induction c with
  | nil => exact List.Perm.refl _
  | cons p rest ih =>
    exact (sortInsert_perm p (marshalCache rest)).trans (ih.cons p)

/- ===================== list-update and sweep lemmas ===================== -/

theorem updateAt_get?_ne {α : Type} (l : List α) (i j : Nat) (f : α → α) (h : j ≠ i) :
    (updateAt l i f).get? j = l.get? j := by
  induction l generalizing i j with
  | nil => rfl
  | cons a rest ih =>
    cases i with
    | zero =>
      cases j with
      | zero => exact absurd rfl h
      | succ n => rfl
    | succ m =>
      cases j with
      | zero => rfl
      | succ n => exact ih m n (fun hh => h (congrArg Nat.succ hh))

theorem updateAt_get?_self {α : Type} (l : List α) (i : Nat) (f : α → α) :
    (updateAt l i f).get? i = Option.map f (l.get? i) := by
  induction l generalizing i with
  | nil => rfl
  | cons a rest ih =>
    cases i with
    | zero => rfl
    | succ m => exact ih m

theorem map_fst_eq_some {x : Option (Option DNSResponse × List Nat)} {o : Option DNSResponse}
    (h : Option.map Prod.fst x = some o) : ∃ acc, x = some (o, acc) := by
  cases x with
  | none => simp at h
  | some pr =>
    obtain ⟨o2, acc⟩ := pr
    simp at h
    exact ⟨acc, by rw [← h]⟩

theorem map_fst_cons_acc (p : Nat) (x : Option (Option DNSResponse × List Nat)) :
    Option.map Prod.fst
        (Option.map (fun pr : Option DNSResponse × List Nat => (pr.1, p :: pr.2)) x)
      = Option.map Prod.fst x := by
  cases x <;> rfl

theorem peerSweep_cons_self (w : World) (ci : Nat) (domain : String) (now : Int)
    (p : Nat) (l : List Nat) (h : p = ci) :
    peerSweep w ci domain now (p :: l) = peerSweep w ci domain now l := by
  subst h
  simp [peerSweep]

theorem peerSweep_cons_nohit (w : World) (ci : Nat) (domain : String) (now : Int)
    (p : Nat) (l : List Nat) (peer : Client) (hpc : p ≠ ci)
    (hpeer : w.clients.get? p = some peer) (hl : lookupA peer.cache domain = none) :
    peerSweep w ci domain now (p :: l)
      = Option.map (fun pr => (pr.1, p :: pr.2)) (peerSweep w ci domain now l) := by
  rw [List.get?_eq_getElem?] at hpeer
  simp [peerSweep, hpc, hpeer, hl]

theorem peerSweep_cons_stale (w : World) (ci : Nat) (domain : String) (now : Int)
    (p : Nat) (l : List Nat) (peer : Client) (r : DNSResponse) (hpc : p ≠ ci)
    (hpeer : w.clients.get? p = some peer) (hl : lookupA peer.cache domain = some r)
    (hfr : isFresh now r.timestamp = false) :
    peerSweep w ci domain now (p :: l)
      = Option.map (fun pr => (pr.1, p :: pr.2)) (peerSweep w ci domain now l) := by
  rw [List.get?_eq_getElem?] at hpeer
  simp [peerSweep, hpc, hpeer, hl, hfr]

theorem peerSweep_cons_hit (w : World) (ci : Nat) (domain : String) (now : Int)
    (p : Nat) (l : List Nat) (peer : Client) (r : DNSResponse) (hpc : p ≠ ci)
    (hpeer : w.clients.get? p = some peer) (hl : lookupA peer.cache domain = some r)
    (hfr : isFresh now r.timestamp = true) :
    peerSweep w ci domain now (p :: l) = some (some r, [p]) := by
  rw [List.get?_eq_getElem?] at hpeer
  simp [peerSweep, hpc, hpeer, hl, hfr]

theorem peerSweep_skip (w : World) (ci : Nat) (domain : String) (now : Int)
    (pre rest : List Nat) (h : ∀ pj ∈ pre, peerMisses w ci domain now pj) :
    Option.map Prod.fst (peerSweep w ci domain now (pre ++ rest))
      = Option.map Prod.fst (peerSweep w ci domain now rest) := by
  induction pre with
  | nil => rfl
  | cons p ps ih =>
    have hp := h p (List.mem_cons_self p ps)
    have hps : ∀ pj ∈ ps, peerMisses w ci domain now pj :=
      fun pj hj => h pj (List.mem_cons_of_mem p hj)
    by_cases hpc : p = ci
    · rw [List.cons_append, peerSweep_cons_self w ci domain now p (ps ++ rest) hpc]
      exact ih hps
    · rcases hp with hself | ⟨peer, hpeer, hstale⟩
      · exact absurd hself hpc
      · rw [List.cons_append]
        cases hl : lookupA peer.cache domain with
        | none =>
          rw [peerSweep_cons_nohit w ci domain now p (ps ++ rest) peer hpc hpeer hl,
            map_fst_cons_acc]
          exact ih hps
        | some r =>
          rw [peerSweep_cons_stale w ci domain now p (ps ++ rest) peer r hpc hpeer hl
            (hstale r hl), map_fst_cons_acc]
          exact ih hps

theorem peerSweep_all_miss (w : World) (ci : Nat) (domain : String) (now : Int)
    (ps : List Nat) (h : ∀ pj ∈ ps, peerMisses w ci domain now pj) :
    ∃ acc, peerSweep w ci domain now ps = some (none, acc) := by
  have hskip := peerSweep_skip w ci domain now ps [] h
  rw [List.append_nil] at hskip
  exact map_fst_eq_some hskip

/- ===================== queryDNS branch equations ===================== -/

theorem qd_client_none (resolver : String → Except String (List String)) (writeOk : Bool)
    (now : Int) (w : World) (ci : Nat) (domain : String)
    (hc : w.clients.get? ci = none) :
    queryDNS resolver writeOk now w ci domain = none := by
  rw [List.get?_eq_getElem?] at hc
  simp [queryDNS, hc]

theorem qd_local (resolver : String → Except String (List String)) (writeOk : Bool)
    (now : Int) (w : World) (ci : Nat) (domain : String) (c : Client) (r : DNSResponse)
    (hc : w.clients.get? ci = some c) (hl : localFresh c domain now = some r) :
    queryDNS resolver writeOk now w ci domain
      = some (Except.ok r.ipAddress, w, ⟨0, [], 0⟩) := by
  rw [List.get?_eq_getElem?] at hc
  simp [queryDNS, hc, hl]

theorem qd_group_none (resolver : String → Except String (List String)) (writeOk : Bool)
    (now : Int) (w : World) (ci : Nat) (domain : String) (c : Client)
    (hc : w.clients.get? ci = some c) (hl : localFresh c domain now = none)
    (hgi : c.group = none) :
    queryDNS resolver writeOk now w ci domain = none := by
  rw [List.get?_eq_getElem?] at hc
  simp [queryDNS, hc, hl, hgi]

theorem qd_group_dangling (resolver : String → Except String (List String)) (writeOk : Bool)
    (now : Int) (w : World) (ci : Nat) (domain : String) (c : Client) (gi : Nat)
    (hc : w.clients.get? ci = some c) (hl : localFresh c domain now = none)
    (hgi : c.group = some gi) (hg : w.groups.get? gi = none) :
    queryDNS resolver writeOk now w ci domain = none := by
  rw [List.get?_eq_getElem?] at hc
  rw [List.get?_eq_getElem?] at hg
  simp [queryDNS, hc, hl, hgi, hg]

theorem qd_sweep_none (resolver : String → Except String (List String)) (writeOk : Bool)
    (now : Int) (w : World) (ci : Nat) (domain : String) (c : Client) (gi : Nat) (g : Group)
    (hc : w.clients.get? ci = some c) (hl : localFresh c domain now = none)
    (hgi : c.group = some gi) (hg : w.groups.get? gi = some g)
    (hsw : peerSweep w ci domain now g.clients = none) :
    queryDNS resolver writeOk now w ci domain = none := by
  rw [List.get?_eq_getElem?] at hc
  rw [List.get?_eq_getElem?] at hg
  simp [queryDNS, hc, hl, hgi, hg, hsw]

theorem qd_peer_hit (resolver : String → Except String (List String)) (writeOk : Bool)
    (now : Int) (w : World) (ci : Nat) (domain : String) (c : Client) (gi : Nat) (g : Group)
    (r : DNSResponse) (acc : List Nat)
    (hc : w.clients.get? ci = some c) (hl : localFresh c domain now = none)
    (hgi : c.group = some gi) (hg : w.groups.get? gi = some g)
    (hsw : peerSweep w ci domain now g.clients = some (some r, acc)) :
    queryDNS resolver writeOk now w ci domain
      = some (Except.ok r.ipAddress,
          saveCacheW (setClient w ci { c with cache := insertA c.cache domain r })
            { c with cache := insertA c.cache domain r } writeOk,
          ⟨0, acc, 1⟩) := by
  rw [List.get?_eq_getElem?] at hc
  rw [List.get?_eq_getElem?] at hg
  simp [queryDNS, hc, hl, hgi, hg, hsw]

theorem qd_upstream_error (resolver : String → Except String (List String)) (writeOk : Bool)
    (now : Int) (w : World) (ci : Nat) (domain : String) (c : Client) (gi : Nat) (g : Group)
    (acc : List Nat) (e : String)
    (hc : w.clients.get? ci = some c) (hl : localFresh c domain now = none)
    (hgi : c.group = some gi) (hg : w.groups.get? gi = some g)
    (hsw : peerSweep w ci domain now g.clients = some (none, acc))
    (hq : queryDNSResolver resolver domain = Except.error e) :
    queryDNS resolver writeOk now w ci domain
      = some (Except.error e, w, ⟨1, acc, 0⟩) := by
  rw [List.get?_eq_getElem?] at hc
  rw [List.get?_eq_getElem?] at hg
  simp [queryDNS, hc, hl, hgi, hg, hsw, hq]

theorem qd_upstream_ok (resolver : String → Except String (List String)) (writeOk : Bool)
    (now : Int) (w : World) (ci : Nat) (domain : String) (c : Client) (gi : Nat) (g : Group)
    (acc : List Nat) (ip : String)
    (hc : w.clients.get? ci = some c) (hl : localFresh c domain now = none)
    (hgi : c.group = some gi) (hg : w.groups.get? gi = some g)
    (hsw : peerSweep w ci domain now g.clients = some (none, acc))
    (hq : queryDNSResolver resolver domain = Except.ok ip) :
    queryDNS resolver writeOk now w ci domain
      = some (Except.ok ip,
          saveCacheW
            (setClient w ci { c with cache := insertA c.cache domain (DNSResponse.mk ip now) })
            { c with cache := insertA c.cache domain (DNSResponse.mk ip now) } writeOk,
          ⟨1, acc, 1⟩) := by
  rw [List.get?_eq_getElem?] at hc
  rw [List.get?_eq_getElem?] at hg
  simp [queryDNS, hc, hl, hgi, hg, hsw, hq]

/- ===================== claim theorems ===================== -/

/-- C5: the freshness test used by resolution is exactly
`now - observedAt < TTL` with the TTL fixed at one hour (3600 seconds in
nanoseconds), and an entry whose age is exactly the TTL is stale. -/
theorem C5_freshness_test :
    (∀ now ts : Int, isFresh now ts = decide (now - ts < timeHour))
    ∧ timeHour = 3600 * 1000000000
    ∧ ∀ ts : Int, isFresh (ts + timeHour) ts = false := by
  refine ⟨fun _ _ => rfl, by norm_num [timeHour], fun ts => ?_⟩
  simp only [isFresh, timeHour, decide_eq_false_iff_not]
  omega

/-- C1: if the client's own cache holds a fresh entry for the domain,
QueryDNS returns that entry's address, takes no peer lock, never invokes
the upstream resolver, performs no save, and leaves the entire world
(its own cache and snapshot file included) unchanged. -/
theorem C1_local_hit (resolver : String → Except String (List String)) (writeOk : Bool)
    (now : Int) (w : World) (ci : Nat) (domain : String) (c : Client) (r : DNSResponse)
    (hc : w.clients.get? ci = some c)
    (hr : lookupA c.cache domain = some r)
    (hf : isFresh now r.timestamp = true) :
    queryDNS resolver writeOk now w ci domain
      = some (Except.ok r.ipAddress, w, ⟨0, [], 0⟩) := by
  have hlocal : localFresh c domain now = some r := by
    simp [localFresh, hr, hf]
  exact qd_local resolver writeOk now w ci domain c r hc hlocal

/-- C1 witness: concrete local-hit scenario. -/
theorem C1_witness :
    queryDNS exResolverFail true 100 exWorldA 0 "a.com"
      = some (Except.ok "1.1.1.1", exWorldA, ⟨0, [], 0⟩) :=
  C1_local_hit exResolverFail true 100 exWorldA 0 "a.com" exClient0 exResponse
    (by decide) (by decide) (by decide)

/-- C8: saving a cache to the snapshot file and loading the file into a
freshly constructed empty cache for the same snapshot file reproduces
exactly the same mapping (same domains, addresses and timestamps). -/
theorem C8_roundtrip (c c0 : Client) (files : FileSys)
    (hwf : mapWF c.cache)
    (hfile : c0.cacheFile = c.cacheFile) (hempty : c0.cache = []) :
    ∀ d, lookupA (loadCacheClient (saveCacheFiles files c true) c0).cache d
        = lookupA c.cache d := by
  intro d
  have hlook : lookupA (saveCacheFiles files c true) c0.cacheFile
      = some (FileData.valid (marshalCache c.cache)) := by
    rw [hfile]
    simp [saveCacheFiles, lookupA_insert_self]
  simp only [loadCacheClient, hlook]
  rw [hempty, unmarshalInto_lookup]
  simp only [lookupA, optOr_none_right]
  exact lookupA_perm ((List.reverse_perm _).trans (marshalCache_perm _)) hwf d

/-- C8 witness: round-trip of a concrete two-entry cache. -/
theorem C8_witness :
    lookupA (loadCacheClient (saveCacheFiles [] exRTClient true) exRTFresh).cache "a.com"
      = lookupA exRTClient.cache "a.com" :=
  C8_roundtrip exRTClient exRTFresh [] (by unfold mapWF; decide) rfl rfl "a.com"

/-- C9: persistence failures are absorbed and never reach the caller: a
missing or corrupt snapshot file at construction yields an empty cache
(no error), and a failed snapshot write during resolution changes
neither the result, the in-memory caches, the groups, nor the log. -/
theorem C9_persistence_absorbed :
    (∀ (files : FileSys) (id server : String),
      (lookupA files (id ++ "_cache.json") = none
        ∨ lookupA files (id ++ "_cache.json") = some FileData.corrupt) →
      (newClient files id server).cache = [])
    ∧ ∀ (resolver : String → Except String (List String)) (now : Int) (w : World)
        (ci : Nat) (domain : String),
        memoryView (queryDNS resolver true now w ci domain)
          = memoryView (queryDNS resolver false now w ci domain) := by
  constructor
  · intro files id server h
    unfold newClient loadCacheClient
    rcases h with h | h <;> simp [h]
  · intro resolver now w ci domain
    cases hc : w.clients.get? ci with
    | none =>
      rw [qd_client_none resolver true now w ci domain hc,
        qd_client_none resolver false now w ci domain hc]
    | some c =>
      cases hl : localFresh c domain now with
      | some r =>
        rw [qd_local resolver true now w ci domain c r hc hl,
          qd_local resolver false now w ci domain c r hc hl]
      | none =>
        cases hgi : c.group with
        | none =>
          rw [qd_group_none resolver true now w ci domain c hc hl hgi,
            qd_group_none resolver false now w ci domain c hc hl hgi]
        | some gi =>
          cases hg : w.groups.get? gi with
          | none =>
            rw [qd_group_dangling resolver true now w ci domain c gi hc hl hgi hg,
              qd_group_dangling resolver false now w ci domain c gi hc hl hgi hg]
          | some g =>
            cases hsw : peerSweep w ci domain now g.clients with
            | none =>
              rw [qd_sweep_none resolver true now w ci domain c gi g hc hl hgi hg hsw,
                qd_sweep_none resolver false now w ci domain c gi g hc hl hgi hg hsw]
            | some pr =>
              obtain ⟨res, acc⟩ := pr
              cases res with
              | some r =>
                rw [qd_peer_hit resolver true now w ci domain c gi g r acc hc hl hgi hg hsw,
                  qd_peer_hit resolver false now w ci domain c gi g r acc hc hl hgi hg hsw]
                simp [memoryView, saveCacheW, setClient]
              | none =>
                cases hq : queryDNSResolver resolver domain with
                | error e =>
                  rw [qd_upstream_error resolver true now w ci domain c gi g acc e
                      hc hl hgi hg hsw hq,
                    qd_upstream_error resolver false now w ci domain c gi g acc e
                      hc hl hgi hg hsw hq]
                | ok ip =>
                  rw [qd_upstream_ok resolver true now w ci domain c gi g acc ip
                      hc hl hgi hg hsw hq,
                    qd_upstream_ok resolver false now w ci domain c gi g acc ip
                      hc hl hgi hg hsw hq]
                  simp [memoryView, saveCacheW, setClient]

/-- C2: on a local miss, if the first qualifying member of the group
(in stored member order, skipping self; the members scanned before it
yield nothing fresh) is a valid peer with a fresh entry, QueryDNS
returns that peer's address with no freshness comparison against later
peers, copies the entry into the local cache with the peer's original
observedAt, saves the snapshot once, and never invokes upstream. -/
theorem C2_peer_propagation (resolver : String → Except String (List String))
    (writeOk : Bool) (now : Int) (w : World) (ci : Nat) (domain : String)
    (c : Client) (gi : Nat) (g : Group) (pre rest : List Nat) (pj : Nat)
    (peer : Client) (r : DNSResponse)
    (hc : w.clients.get? ci = some c)
    (hl : localFresh c domain now = none)
    (hgi : c.group = some gi)
    (hg : w.groups.get? gi = some g)
    (hsplit : g.clients = pre ++ pj :: rest)
    (hpre : ∀ x ∈ pre, peerMisses w ci domain now x)
    (hpj : pj ≠ ci)
    (hpeer : w.clients.get? pj = some peer)
    (hr : lookupA peer.cache domain = some r)
    (hf : isFresh now r.timestamp = true) :
    ∃ acc,
      queryDNS resolver writeOk now w ci domain
        = some (Except.ok r.ipAddress,
            saveCacheW (setClient w ci { c with cache := insertA c.cache domain r })
              { c with cache := insertA c.cache domain r } writeOk,
            ⟨0, acc, 1⟩)
      ∧ lookupA (insertA c.cache domain r) domain = some r := by
  have hhit : peerSweep w ci domain now (pj :: rest) = some (some r, [pj]) :=
    peerSweep_cons_hit w ci domain now pj rest peer r hpj hpeer hr hf
  have hskip := peerSweep_skip w ci domain now pre (pj :: rest) hpre
  rw [hhit] at hskip
  have hskip2 : Option.map Prod.fst (peerSweep w ci domain now (pre ++ pj :: rest))
      = some (some r) := hskip.trans rfl
  obtain ⟨acc, hsw⟩ := map_fst_eq_some hskip2
  rw [← hsplit] at hsw
  exact ⟨acc,
    qd_peer_hit resolver writeOk now w ci domain c gi g r acc hc hl hgi hg hsw,
    lookupA_insert_self _ _ _⟩

/-- C2 witness: concrete two-client group, peer holds the fresh entry. -/
theorem C2_witness :
    ∃ acc,
      queryDNS exResolverFail true 100 exWorldP 0 "a.com"
        = some (Except.ok "2.2.2.2",
            saveCacheW
              (setClient exWorldP 0
                { exEmptyClient with
                  cache := insertA exEmptyClient.cache "a.com" ⟨"2.2.2.2", 50⟩ })
              { exEmptyClient with
                cache := insertA exEmptyClient.cache "a.com" ⟨"2.2.2.2", 50⟩ } true,
            ⟨0, acc, 1⟩)
      ∧ lookupA (insertA exEmptyClient.cache "a.com" ⟨"2.2.2.2", 50⟩) "a.com"
          = some ⟨"2.2.2.2", 50⟩ :=
  C2_peer_propagation exResolverFail true 100 exWorldP 0 "a.com" exEmptyClient 0
    ⟨"Group-1", [0, 1]⟩ [0] [] 1 exPeerClient ⟨"2.2.2.2", 50⟩
    (by decide) (by decide) (by decide) (by decide) rfl
    (by
      intro x hx
      simp at hx
      subst hx
      exact Or.inl rfl)
    (by decide) (by decide) (by decide) (by decide)

/-- C3: when neither the client nor any member of its group yields a
fresh entry, QueryDNS invokes the upstream resolver exactly once; on
success it returns the resolved address, stores it locally with
observedAt = now (a fresh entry), and saves the snapshot. -/
theorem C3_upstream_fallback (resolver : String → Except String (List String))
    (writeOk : Bool) (now : Int) (w : World) (ci : Nat) (domain : String)
    (c : Client) (gi : Nat) (g : Group) (ip : String) (ips : List String)
    (hc : w.clients.get? ci = some c)
    (hl : localFresh c domain now = none)
    (hgi : c.group = some gi)
    (hg : w.groups.get? gi = some g)
    (hmiss : ∀ x ∈ g.clients, peerMisses w ci domain now x)
    (hres : resolver domain = Except.ok (ip :: ips)) :
    ∃ acc,
      queryDNS resolver writeOk now w ci domain
        = some (Except.ok ip,
            saveCacheW
              (setClient w ci
                { c with cache := insertA c.cache domain (DNSResponse.mk ip now) })
              { c with cache := insertA c.cache domain (DNSResponse.mk ip now) } writeOk,
            ⟨1, acc, 1⟩)
      ∧ lookupA (insertA c.cache domain (DNSResponse.mk ip now)) domain
          = some (DNSResponse.mk ip now)
      ∧ isFresh now (DNSResponse.mk ip now).timestamp = true := by
  obtain ⟨acc, hsw⟩ := peerSweep_all_miss w ci domain now g.clients hmiss
  have hq : queryDNSResolver resolver domain = Except.ok ip := by
    simp [queryDNSResolver, hres]
  refine ⟨acc,
    qd_upstream_ok resolver writeOk now w ci domain c gi g acc ip hc hl hgi hg hsw hq,
    lookupA_insert_self _ _ _, ?_⟩
  simp only [isFresh, timeHour, decide_eq_true_eq]
  omega

/-- C3 witness: concrete group where every member misses and upstream
answers `9.9.9.9`. -/
theorem C3_witness :
    ∃ acc,
      queryDNS exResolverOk true 100 exWorldP 0 "b.com"
        = some (Except.ok "9.9.9.9",
            saveCacheW
              (setClient exWorldP 0
                { exEmptyClient with
                  cache := insertA exEmptyClient.cache "b.com" (DNSResponse.mk "9.9.9.9" 100) })
              { exEmptyClient with
                cache := insertA exEmptyClient.cache "b.com" (DNSResponse.mk "9.9.9.9" 100) }
              true,
            ⟨1, acc, 1⟩)
      ∧ lookupA (insertA exEmptyClient.cache "b.com" (DNSResponse.mk "9.9.9.9" 100)) "b.com"
          = some (DNSResponse.mk "9.9.9.9" 100)
      ∧ isFresh 100 (DNSResponse.mk "9.9.9.9" 100).timestamp = true :=
  C3_upstream_fallback exResolverOk true 100 exWorldP 0 "b.com" exEmptyClient 0
    ⟨"Group-1", [0, 1]⟩ "9.9.9.9" []
    (by decide) (by decide) (by decide) (by decide)
    (by
      intro x hx
      simp at hx
      rcases hx with rfl | rfl
      · exact Or.inl rfl
      · refine Or.inr ⟨exPeerClient, by decide, ?_⟩
        intro r hr
        have hnone : lookupA exPeerClient.cache "b.com" = none := by decide
        rw [hnone] at hr
        exact Option.noConfusion hr)
    rfl

/-- C4 counterexample: client 0 holds a stale entry for d.com; the call
fails upstream (leaving the world unchanged), yet the cache still
contains an entry for d.com — refuting "after an upstream failure, C's
cache contains no entry for D" as universally stated. -/
theorem C4_counterexample :
    queryDNS exResolverFail true timeHour exWorldStale 0 "d.com"
      = some (Except.error "failed to resolve domain d.com: boom", exWorldStale, ⟨1, [], 0⟩)
    ∧ exWorldStale.clients.get? 0 = some exStaleClient
    ∧ lookupA exStaleClient.cache "d.com" = some ⟨"1.2.3.4", 0⟩ :=
  ⟨rfl, by decide, by decide⟩

/-- C4 (amended): an upstream resolution failure leaves the entire world
unchanged — nothing is written to the cache, so a domain absent before
the call is still absent (a pre-existing stale entry, however, simply
remains); the failing call invoked the upstream resolver exactly once
and saved nothing; the returned error is exactly the upstream error
(the only error path); and an immediately repeated call performs the
same upstream retry rather than returning a stored failure. -/
theorem C4_no_negative_caching (resolver : String → Except String (List String))
    (writeOk : Bool) (now : Int) (w : World) (ci : Nat) (domain : String)
    (e : String) (w2 : World) (log : QueryLog)
    (h : queryDNS resolver writeOk now w ci domain = some (Except.error e, w2, log)) :
    w2 = w
    ∧ queryDNSResolver resolver domain = Except.error e
    ∧ log.upstreamCalls = 1 ∧ log.saves = 0
    ∧ queryDNS resolver writeOk now w2 ci domain = some (Except.error e, w2, log) := by
  cases hc : w.clients.get? ci with
  | none =>
    rw [qd_client_none resolver writeOk now w ci domain hc] at h
    exact Option.noConfusion h
  | some c =>
    cases hl : localFresh c domain now with
    | some r =>
      rw [qd_local resolver writeOk now w ci domain c r hc hl] at h
      simp at h
    | none =>
      cases hgi : c.group with
      | none =>
        rw [qd_group_none resolver writeOk now w ci domain c hc hl hgi] at h
        exact Option.noConfusion h
      | some gi =>
        cases hg : w.groups.get? gi with
        | none =>
          rw [qd_group_dangling resolver writeOk now w ci domain c gi hc hl hgi hg] at h
          exact Option.noConfusion h
        | some g =>
          cases hsw : peerSweep w ci domain now g.clients with
          | none =>
            rw [qd_sweep_none resolver writeOk now w ci domain c gi g hc hl hgi hg hsw] at h
            exact Option.noConfusion h
          | some pr =>
            obtain ⟨res, acc⟩ := pr
            cases res with
            | some r =>
              rw [qd_peer_hit resolver writeOk now w ci domain c gi g r acc
                hc hl hgi hg hsw] at h
              simp at h
            | none =>
              cases hq : queryDNSResolver resolver domain with
              | ok ip =>
                rw [qd_upstream_ok resolver writeOk now w ci domain c gi g acc ip
                  hc hl hgi hg hsw hq] at h
                simp at h
              | error e0 =>
                rw [qd_upstream_error resolver writeOk now w ci domain c gi g acc e0
                  hc hl hgi hg hsw hq] at h
                simp only [Option.some.injEq, Prod.mk.injEq, Except.error.injEq] at h
                obtain ⟨he, hw, hlog⟩ := h
                refine ⟨hw.symm, ?_, ?_, ?_, ?_⟩
                · exact congrArg Except.error he
                · rw [← hlog]
                · rw [← hlog]
                · rw [← hw, ← hlog, ← he]
                  exact qd_upstream_error resolver writeOk now w ci domain c gi g acc e0
                    hc hl hgi hg hsw hq

/-- C4 witness: concrete upstream failure, conclusion of the amended
theorem instantiated. -/
theorem C4_witness :
    exWorldStale = exWorldStale
    ∧ queryDNSResolver exResolverFail "d.com"
        = Except.error "failed to resolve domain d.com: boom"
    ∧ (⟨1, [], 0⟩ : QueryLog).upstreamCalls = 1
    ∧ (⟨1, [], 0⟩ : QueryLog).saves = 0
    ∧ queryDNS exResolverFail true timeHour exWorldStale 0 "d.com"
        = some (Except.error "failed to resolve domain d.com: boom", exWorldStale,
            ⟨1, [], 0⟩) :=
  C4_no_negative_caching exResolverFail true timeHour exWorldStale 0 "d.com"
    "failed to resolve domain d.com: boom" exWorldStale ⟨1, [], 0⟩ rfl

/-- C10: a QueryDNS call mutates at most the queried client's own cache
and its own snapshot file: the group list is untouched, every other
client is untouched, the queried client keeps its id, group, server and
snapshot-file name, and every other file is untouched. -/
theorem frame_same (w : World) (ci : Nat) : frameConclusion w w ci :=
  ⟨rfl, fun _ _ => rfl,
    fun c hcc => ⟨⟨c, hcc, rfl, rfl, rfl, rfl⟩, fun _ _ => rfl⟩⟩

theorem frame_write (w : World) (ci : Nat) (c cNew : Client) (writeOk : Bool)
    (hc : w.clients.get? ci = some c)
    (hid : cNew.id = c.id) (hgr : cNew.group = c.group) (hsv : cNew.server = c.server)
    (hcf : cNew.cacheFile = c.cacheFile) :
    frameConclusion w (saveCacheW (setClient w ci cNew) cNew writeOk) ci := by
  refine ⟨rfl, ?_, ?_⟩
  · intro j hj
    exact updateAt_get?_ne w.clients ci j (fun _ => cNew) hj
  · intro c0 hc0
    have hcc : c = c0 := Option.some.inj (hc.symm.trans hc0)
    subst hcc
    constructor
    · refine ⟨cNew, ?_, hid, hgr, hsv, hcf⟩
      show (updateAt w.clients ci fun _ => cNew).get? ci = some cNew
      rw [updateAt_get?_self, hc]
      rfl
    · intro fn hfn
      show lookupA (saveCacheFiles w.files cNew writeOk) fn = lookupA w.files fn
      cases writeOk with
      | false => rfl
      | true =>
        show lookupA (insertA w.files cNew.cacheFile
          (FileData.valid (marshalCache cNew.cache))) fn = lookupA w.files fn
        refine lookupA_insert_ne w.files cNew.cacheFile fn _ ?_
        rw [hcf]
        exact Ne.symm hfn

/-- C10: a QueryDNS call mutates at most the queried client's own cache
and its own snapshot file: the group list is untouched, every other
client is untouched, the queried client keeps its id, group, server and
snapshot-file name, and every file other than its snapshot is
untouched. -/
theorem C10_frame (resolver : String → Except String (List String))
    (writeOk : Bool) (now : Int) (w : World) (ci : Nat) (domain : String)
    (res : Except String String) (w2 : World) (log : QueryLog)
    (h : queryDNS resolver writeOk now w ci domain = some (res, w2, log)) :
    frameConclusion w w2 ci := by
  cases hc : w.clients.get? ci with
  | none =>
    rw [qd_client_none resolver writeOk now w ci domain hc] at h
    exact Option.noConfusion h
  | some c =>
    cases hl : localFresh c domain now with
    | some r =>
      rw [qd_local resolver writeOk now w ci domain c r hc hl] at h
      simp only [Option.some.injEq, Prod.mk.injEq] at h
      obtain ⟨-, hw, -⟩ := h
      rw [← hw]
      exact frame_same w ci
    | none =>
      cases hgi : c.group with
      | none =>
        rw [qd_group_none resolver writeOk now w ci domain c hc hl hgi] at h
        exact Option.noConfusion h
      | some gi =>
        cases hg : w.groups.get? gi with
        | none =>
          rw [qd_group_dangling resolver writeOk now w ci domain c gi hc hl hgi hg] at h
          exact Option.noConfusion h
        | some g =>
          cases hsw : peerSweep w ci domain now g.clients with
          | none =>
            rw [qd_sweep_none resolver writeOk now w ci domain c gi g hc hl hgi hg hsw] at h
            exact Option.noConfusion h
          | some pr =>
            obtain ⟨sres, acc⟩ := pr
            cases sres with
            | some r =>
              rw [qd_peer_hit resolver writeOk now w ci domain c gi g r acc
                hc hl hgi hg hsw] at h
              simp only [Option.some.injEq, Prod.mk.injEq] at h
              obtain ⟨-, hw, -⟩ := h
              rw [← hw]
              exact frame_write w ci c _ writeOk hc rfl rfl rfl rfl
            | none =>
              cases hq : queryDNSResolver resolver domain with
              | error e =>
                rw [qd_upstream_error resolver writeOk now w ci domain c gi g acc e
                  hc hl hgi hg hsw hq] at h
                simp only [Option.some.injEq, Prod.mk.injEq] at h
                obtain ⟨-, hw, -⟩ := h
                rw [← hw]
                exact frame_same w ci
              | ok ip =>
                rw [qd_upstream_ok resolver writeOk now w ci domain c gi g acc ip
                  hc hl hgi hg hsw hq] at h
                simp only [Option.some.injEq, Prod.mk.injEq] at h
                obtain ⟨-, hw, -⟩ := h
                rw [← hw]
                exact frame_write w ci c _ writeOk hc rfl rfl rfl rfl

/-- C10 witness: concrete peer-propagation call, frame conclusion
instantiated. -/
theorem C10_witness :
    frameConclusion exWorldP
      (saveCacheW
        (setClient exWorldP 0
          { exEmptyClient with
            cache := insertA exEmptyClient.cache "a.com" ⟨"2.2.2.2", 50⟩ })
        { exEmptyClient with
          cache := insertA exEmptyClient.cache "a.com" ⟨"2.2.2.2", 50⟩ } true)
      0 :=
  C10_frame exResolverFail true 100 exWorldP 0 "a.com" (Except.ok "2.2.2.2")
    (saveCacheW
      (setClient exWorldP 0
        { exEmptyClient with
          cache := insertA exEmptyClient.cache "a.com" ⟨"2.2.2.2", 50⟩ })
      { exEmptyClient with
        cache := insertA exEmptyClient.cache "a.com" ⟨"2.2.2.2", 50⟩ } true)
    ⟨0, [1], 1⟩ rfl
theorem C9_witness :
    (newClient [] "x" "8.8.8.8").cache = []
    ∧ memoryView (queryDNS exResolverFail true 0 exWorldA 0 "a.com")
        = memoryView (queryDNS exResolverFail false 0 exWorldA 0 "a.com") :=
  ⟨C9_persistence_absorbed.1 [] "x" "8.8.8.8" (Or.inl rfl),
    C9_persistence_absorbed.2 exResolverFail 0 exWorldA 0 "a.com"⟩

/- ===================== group-assignment lemmas ===================== -/

theorem insertFF_length (ci : Nat) (gs gs2 : List Group) (gi : Nat)
    (h : insertFirstFit ci gs = some (gs2, gi)) : gs2.length = gs.length := by
  induction gs generalizing gs2 gi with
  | nil => simp [insertFirstFit] at h
  | cons g rest ih =>
    by_cases hlt : g.clients.length < groupSize
    · simp only [insertFirstFit, if_pos hlt, Option.some.injEq, Prod.mk.injEq] at h
      obtain ⟨hgs2, -⟩ := h
      subst hgs2
      simp
    · simp only [insertFirstFit, if_neg hlt] at h
      cases hrec : insertFirstFit ci rest with
      | none => rw [hrec] at h; simp at h
      | some p =>
        obtain ⟨gs3, j0⟩ := p
        rw [hrec] at h
        simp only [Option.map_some', Option.some.injEq, Prod.mk.injEq] at h
        obtain ⟨hgs2, -⟩ := h
        subst hgs2
        simp [ih gs3 j0 hrec]

theorem insertFF_none (ci : Nat) (gs : List Group)
    (h : insertFirstFit ci gs = none) : ∀ g ∈ gs, ¬ g.clients.length < groupSize := by
  induction gs with
  | nil => intro g hg; exact absurd hg (List.not_mem_nil g)
  | cons g rest ih =>
    by_cases hlt : g.clients.length < groupSize
    · simp [insertFirstFit, hlt] at h
    · simp only [insertFirstFit, if_neg hlt] at h
      intro x hx
      rcases List.mem_cons.mp hx with rfl | hmem
      · exact hlt
      · exact ih (Option.map_eq_none'.mp h) x hmem

theorem dropLast_cons_of_ne {α : Type} (a : α) (l : List α) (h : l ≠ []) :
    (a :: l).dropLast = a :: l.dropLast := by
  cases l with
  | nil => exact absurd rfl h
  | cons b bs => rfl

theorem insertFF_sizesInv (ci : Nat) (gs gs2 : List Group) (gi : Nat)
    (hinv : sizesInv gs) (h : insertFirstFit ci gs = some (gs2, gi)) : sizesInv gs2 := by
  induction gs generalizing gs2 gi with
  | nil => simp [insertFirstFit] at h
  | cons g rest ih =>
    by_cases hlt : g.clients.length < groupSize
    · simp only [insertFirstFit, if_pos hlt, Option.some.injEq, Prod.mk.injEq] at h
      obtain ⟨hgs2, -⟩ := h
      subst hgs2
      cases rest with
      | nil =>
        refine ⟨?_, ?_⟩
        · intro x hx
          simp [List.dropLast] at hx
        · intro x hx
          rcases List.mem_cons.mp hx with rfl | hmem
          · simp only [List.length_append, List.length_singleton]
            omega
          · exact absurd hmem (List.not_mem_nil x)
      | cons r rs =>
        exfalso
        have hg15 : g.clients.length = groupSize :=
          hinv.1 g (by rw [dropLast_cons_of_ne g (r :: rs) (by simp)]
                       exact List.mem_cons_self _ _)
        omega
    · simp only [insertFirstFit, if_neg hlt] at h
      cases hrec : insertFirstFit ci rest with
      | none => rw [hrec] at h; simp at h
      | some p =>
        obtain ⟨gs3, j0⟩ := p
        rw [hrec] at h
        simp only [Option.map_some', Option.some.injEq, Prod.mk.injEq] at h
        obtain ⟨hgs2, -⟩ := h
        subst hgs2
        cases rest with
        | nil => simp [insertFirstFit] at hrec
        | cons r rs =>
          have hrestinv : sizesInv (r :: rs) := by
            refine ⟨?_, ?_⟩
            · intro x hx
              exact hinv.1 x (by rw [dropLast_cons_of_ne g (r :: rs) (by simp)]
                                 exact List.mem_cons_of_mem g hx)
            · intro x hx
              exact hinv.2 x (List.mem_cons_of_mem g hx)
          have hinv3 := ih gs3 j0 hrestinv hrec
          have hg15 : g.clients.length = groupSize :=
            le_antisymm (hinv.2 g (List.mem_cons_self g (r :: rs))) (Nat.not_lt.mp hlt)
          have hgs3ne : gs3 ≠ [] := by
            intro hnil
            have hlen := insertFF_length ci (r :: rs) gs3 j0 hrec
            rw [hnil] at hlen
            simp at hlen
          refine ⟨?_, ?_⟩
          · intro x hx
            rw [dropLast_cons_of_ne g gs3 hgs3ne] at hx
            rcases List.mem_cons.mp hx with rfl | hmem
            · exact hg15
            · exact hinv3.1 x hmem
          · intro x hx
            rcases List.mem_cons.mp hx with rfl | hmem
            · rw [hg15]
            · exact hinv3.2 x hmem

theorem addClient_eq_some (w : World) (ci : Nat) (gs2 : List Group) (gi : Nat)
    (hif : insertFirstFit ci w.groups = some (gs2, gi)) :
    addClientToGroup w ci
      = { w with
          groups := gs2,
          clients := updateAt w.clients ci (fun c => { c with group := some gi }) } := by
  simp [addClientToGroup, hif]

theorem addClient_eq_none (w : World) (ci : Nat)
    (hif : insertFirstFit ci w.groups = none) :
    addClientToGroup w ci
      = { w with
          groups := w.groups ++
            [{ id := "Group-" ++ toString (w.groups.length + 1), clients := [ci] }],
          clients := updateAt w.clients ci
            (fun c => { c with group := some w.groups.length }) } := by
  simp [addClientToGroup, hif]

theorem addClient_sizesInv (w : World) (ci : Nat) (hinv : sizesInv w.groups) :
    sizesInv (addClientToGroup w ci).groups := by
  cases hif : insertFirstFit ci w.groups with
  | some p =>
    obtain ⟨gs2, gi⟩ := p
    rw [addClient_eq_some w ci gs2 gi hif]
    exact insertFF_sizesInv ci w.groups gs2 gi hinv hif
  | none =>
    rw [addClient_eq_none w ci hif]
    have hfull := insertFF_none ci w.groups hif
    refine ⟨?_, ?_⟩
    · intro x hx
      rw [List.dropLast_concat] at hx
      exact le_antisymm (hinv.2 x hx) (Nat.not_lt.mp (hfull x hx))
    · intro x hx
      rcases List.mem_append.mp hx with hmem | hmem
      · exact hinv.2 x hmem
      · rw [List.mem_singleton.mp hmem]
        simp [groupSize]

theorem foldl_sizesInv (cis : List Nat) (w : World) (hinv : sizesInv w.groups) :
    sizesInv ((cis.foldl addClientToGroup w).groups) := by
  induction cis generalizing w with
  | nil => exact hinv
  | cons c0 rest ih =>
    rw [List.foldl_cons]
    exact ih (addClientToGroup w c0) (addClient_sizesInv w c0 hinv)

/-- C6: group assignment is first-fit: every assignment sequence starting
from an empty manager leaves every group but the last created exactly
full, and assigning `GroupSize * 2 + 3` clients under capacity 15 yields
exactly three groups of sizes 15, 15, 3 with sequential-counter ids in
creation order. -/
theorem C6_first_fit :
    (∀ (cis : List Nat) (w0 : World), w0.groups = [] →
      ∀ g ∈ ((cis.foldl addClientToGroup w0).groups).dropLast,
        g.clients.length = groupSize)
    ∧ (exFold33.groups.map fun g => g.clients.length) = [15, 15, 3]
    ∧ (exFold33.groups.map fun g => g.id) = ["Group-1", "Group-2", "Group-3"] := by
  refine ⟨?_, by decide, by decide⟩
  intro cis w0 h0 g hg
  have hinv : sizesInv w0.groups := by
    rw [h0]
    exact ⟨fun x hx => absurd hx (List.not_mem_nil x),
      fun x hx => absurd hx (List.not_mem_nil x)⟩
  exact (foldl_sizesInv cis w0 hinv).1 g hg

/-- C6 witness: the first group of the 33-client startup assignment is
exactly full. -/
theorem C6_witness :
    exWorld33.groups = []
    ∧ (exFold33.groups.dropLast.headD ⟨"", []⟩).clients.length = groupSize :=
  ⟨rfl, C6_first_fit.1 (List.range (groupSize * 2 + 3)) exWorld33 rfl _ (by decide)⟩

/- ===================== membership lemmas ===================== -/

theorem count_single (a x : Nat) : ([a] : List Nat).count x = if x = a then 1 else 0 := by
  by_cases hx : x = a
  · subst hx; simp
  · simp [List.count_singleton', hx]

theorem count_concat_self (l : List Nat) (a x : Nat) :
    (l ++ [a]).count x = l.count x + (if x = a then 1 else 0) := by
  rw [List.count_append, count_single]

theorem membershipCount_nil (x : Nat) : membershipCount [] x = 0 := rfl

theorem membershipCount_cons (g : Group) (gs : List Group) (x : Nat) :
    membershipCount (g :: gs) x = g.clients.count x + membershipCount gs x := by
  simp [membershipCount]

theorem membershipCount_append_single (gs : List Group) (g : Group) (x : Nat) :
    membershipCount (gs ++ [g]) x = membershipCount gs x + g.clients.count x := by
  simp [membershipCount]

theorem insertFF_count (ci : Nat) (gs gs2 : List Group) (gi : Nat)
    (h : insertFirstFit ci gs = some (gs2, gi)) (x : Nat) :
    membershipCount gs2 x = membershipCount gs x + (if x = ci then 1 else 0) := by
  induction gs generalizing gs2 gi with
  | nil => simp [insertFirstFit] at h
  | cons g rest ih =>
    by_cases hlt : g.clients.length < groupSize
    · simp only [insertFirstFit, if_pos hlt, Option.some.injEq, Prod.mk.injEq] at h
      obtain ⟨hgs2, -⟩ := h
      subst hgs2
      rw [membershipCount_cons, membershipCount_cons]
      show (g.clients ++ [ci]).count x + membershipCount rest x = _
      rw [count_concat_self]
      omega
    · simp only [insertFirstFit, if_neg hlt] at h
      cases hrec : insertFirstFit ci rest with
      | none => rw [hrec] at h; simp at h
      | some p =>
        obtain ⟨gs3, j0⟩ := p
        rw [hrec] at h
        simp only [Option.map_some', Option.some.injEq, Prod.mk.injEq] at h
        obtain ⟨hgs2, -⟩ := h
        subst hgs2
        rw [membershipCount_cons, membershipCount_cons, ih gs3 j0 hrec]
        omega

theorem insertFF_get (ci : Nat) (gs gs2 : List Group) (gi : Nat)
    (h : insertFirstFit ci gs = some (gs2, gi)) :
    ∃ g, gs.get? gi = some g
      ∧ gs2.get? gi = some { g with clients := g.clients ++ [ci] }
      ∧ ∀ j, j ≠ gi → gs2.get? j = gs.get? j := by
  induction gs generalizing gs2 gi with
  | nil => simp [insertFirstFit] at h
  | cons g rest ih =>
    by_cases hlt : g.clients.length < groupSize
    · simp only [insertFirstFit, if_pos hlt, Option.some.injEq, Prod.mk.injEq] at h
      obtain ⟨hgs2, hgi⟩ := h
      subst hgs2
      subst hgi
      refine ⟨g, rfl, rfl, ?_⟩
      intro j hj
      cases j with
      | zero => exact absurd rfl hj
      | succ n => rfl
    · simp only [insertFirstFit, if_neg hlt] at h
      cases hrec : insertFirstFit ci rest with
      | none => rw [hrec] at h; simp at h
      | some p =>
        obtain ⟨gs3, j0⟩ := p
        rw [hrec] at h
        simp only [Option.map_some', Option.some.injEq, Prod.mk.injEq] at h
        obtain ⟨hgs2, hgi⟩ := h
        subst hgs2
        subst hgi
        obtain ⟨g0, hget, hget2, hother⟩ := ih gs3 j0 hrec
        refine ⟨g0, hget, hget2, ?_⟩
        intro j hj
        cases j with
        | zero => rfl
        | succ n => exact hother n (fun hh => hj (congrArg Nat.succ hh))

theorem addClient_step (w : World) (ci : Nat) :
    (∀ x, membershipCount (addClientToGroup w ci).groups x
        = membershipCount w.groups x + (if x = ci then 1 else 0))
    ∧ (∀ j, j ≠ ci → (addClientToGroup w ci).clients.get? j = w.clients.get? j)
    ∧ (∀ gi0 g0, w.groups.get? gi0 = some g0 →
        ∃ g2, (addClientToGroup w ci).groups.get? gi0 = some g2
          ∧ ∀ y ∈ g0.clients, y ∈ g2.clients)
    ∧ (∀ c, w.clients.get? ci = some c →
        ∃ gi2 g2, (addClientToGroup w ci).clients.get? ci = some { c with group := some gi2 }
          ∧ (addClientToGroup w ci).groups.get? gi2 = some g2 ∧ ci ∈ g2.clients) := by
  cases hif : insertFirstFit ci w.groups with
  | some p =>
    obtain ⟨gs2, gi⟩ := p
    rw [addClient_eq_some w ci gs2 gi hif]
    obtain ⟨g0, hget, hget2, hother⟩ := insertFF_get ci w.groups gs2 gi hif
    refine ⟨insertFF_count ci w.groups gs2 gi hif, ?_, ?_, ?_⟩
    · intro j hj
      exact updateAt_get?_ne w.clients ci j _ hj
    · intro gi0 gg hgg
      by_cases hgi0 : gi0 = gi
      · subst hgi0
        have hgg0 : g0 = gg := Option.some.inj (hget.symm.trans hgg)
        subst hgg0
        exact ⟨{ g0 with clients := g0.clients ++ [ci] }, hget2,
          fun y hy => List.mem_append_left _ hy⟩
      · refine ⟨gg, ?_, fun y hy => hy⟩
        show gs2.get? gi0 = some gg
        rw [hother gi0 hgi0]
        exact hgg
    · intro c hc
      refine ⟨gi, { g0 with clients := g0.clients ++ [ci] }, ?_, hget2, ?_⟩
      · show (updateAt w.clients ci _).get? ci = _
        rw [updateAt_get?_self, hc]
        rfl
      · exact List.mem_append_right _ (List.mem_singleton_self ci)
  | none =>
    rw [addClient_eq_none w ci hif]
    refine ⟨?_, ?_, ?_, ?_⟩
    · intro x
      show membershipCount
          (w.groups ++ [⟨"Group-" ++ toString (w.groups.length + 1), [ci]⟩]) x = _
      rw [membershipCount_append_single, count_single]
    · intro j hj
      exact updateAt_get?_ne w.clients ci j _ hj
    · intro gi0 gg hgg
      obtain ⟨hlt, -⟩ := List.get?_eq_some.mp hgg
      refine ⟨gg, ?_, fun y hy => hy⟩
      show (w.groups ++ [Group.mk ("Group-" ++ toString (w.groups.length + 1)) [ci]]).get? gi0
          = some gg
      rw [List.get?_append hlt]
      exact hgg
    · intro c hc
      refine ⟨w.groups.length,
        ⟨"Group-" ++ toString (w.groups.length + 1), [ci]⟩, ?_, ?_, ?_⟩
      · show (updateAt w.clients ci _).get? ci = _
        rw [updateAt_get?_self, hc]
        rfl
      · exact List.get?_concat_length w.groups _
      · exact List.mem_singleton_self ci

theorem fold_assign (cis : List Nat) (w : World)
    (hnd : cis.Nodup)
    (h0 : ∀ x ∈ cis, membershipCount w.groups x = 0)
    (hex : ∀ x ∈ cis, ∃ c, w.clients.get? x = some c) :
    (∀ x ∈ cis,
      membershipCount ((cis.foldl addClientToGroup w).groups) x = 1
      ∧ ∃ c gi g, ((cis.foldl addClientToGroup w).clients).get? x = some c
          ∧ c.group = some gi
          ∧ ((cis.foldl addClientToGroup w).groups).get? gi = some g
          ∧ x ∈ g.clients)
    ∧ (∀ x, x ∉ cis → membershipCount ((cis.foldl addClientToGroup w).groups) x
        = membershipCount w.groups x)
    ∧ (∀ j, j ∉ cis → ((cis.foldl addClientToGroup w).clients).get? j = w.clients.get? j)
    ∧ (∀ gi g, w.groups.get? gi = some g →
        ∃ g2, ((cis.foldl addClientToGroup w).groups).get? gi = some g2
          ∧ ∀ y ∈ g.clients, y ∈ g2.clients) := by
  induction cis generalizing w with
  | nil =>
    refine ⟨fun x hx => absurd hx (List.not_mem_nil x), fun x _ => rfl, fun j _ => rfl,
      fun gi g hgg => ⟨g, hgg, fun y hy => hy⟩⟩
  | cons c0 rest ih =>
    obtain ⟨hnd0, hndrest⟩ := List.nodup_cons.mp hnd
    obtain ⟨s1, s2, s3, s4⟩ := addClient_step w c0
    have hrest0 : ∀ x ∈ rest, membershipCount (addClientToGroup w c0).groups x = 0 := by
      intro x hx
      have hxc0 : x ≠ c0 := fun hxx => hnd0 (hxx ▸ hx)
      rw [s1 x, if_neg hxc0, h0 x (List.mem_cons_of_mem c0 hx)]
    have hrestex : ∀ x ∈ rest, ∃ c, (addClientToGroup w c0).clients.get? x = some c := by
      intro x hx
      have hxc0 : x ≠ c0 := fun hxx => hnd0 (hxx ▸ hx)
      rw [s2 x hxc0]
      exact hex x (List.mem_cons_of_mem c0 hx)
    obtain ⟨i1, i2, i3, i4⟩ := ih (addClientToGroup w c0) hndrest hrest0 hrestex
    rw [List.foldl_cons]
    refine ⟨?_, ?_, ?_, ?_⟩
    · intro x hx
      rcases List.mem_cons.mp hx with rfl | hmem
      · constructor
        · rw [i2 x hnd0, s1 x, if_pos rfl, h0 x (List.mem_cons_self x rest)]
        · obtain ⟨c, hcw⟩ := hex x (List.mem_cons_self x rest)
          obtain ⟨gi2, g2, hcl, hgr, hmem2⟩ := s4 c hcw
          obtain ⟨g3, hg3, hsub⟩ := i4 gi2 g2 hgr
          refine ⟨{ c with group := some gi2 }, gi2, g3, ?_, rfl, hg3, hsub x hmem2⟩
          rw [i3 x hnd0]
          exact hcl
      · exact i1 x hmem
    · intro x hx
      have hxc0 : x ≠ c0 := fun hxx => hx (hxx ▸ List.mem_cons_self c0 rest)
      have hxrest : x ∉ rest := fun hxx => hx (List.mem_cons_of_mem c0 hxx)
      rw [i2 x hxrest, s1 x, if_neg hxc0]
      omega
    · intro j hj
      have hjc0 : j ≠ c0 := fun hxx => hj (hxx ▸ List.mem_cons_self c0 rest)
      have hjrest : j ∉ rest := fun hxx => hj (List.mem_cons_of_mem c0 hxx)
      rw [i3 j hjrest, s2 j hjc0]
    · intro gi g hgg
      obtain ⟨g2, hg2, hsub⟩ := s3 gi g hgg
      obtain ⟨g3, hg3, hsub2⟩ := i4 gi g2 hg2
      exact ⟨g3, hg3, fun y hy => hsub2 y (hsub y hy)⟩

/-- C7 counterexample: re-adding client 0 (a 16th AddClientToGroup call
with the same client) after its group filled leaves client 0 occurring
in two groups, refuting "every assigned client is a member of exactly
one group" over arbitrary call sequences. -/
theorem C7_counterexample :
    membershipCount ((exDupCis.foldl addClientToGroup exWorld15).groups) 0 = 2
    ∧ ((exDupCis.foldl addClientToGroup exWorld15).groups.countP
        (fun g => decide (0 ∈ g.clients))) = 2 := by
  exact ⟨by decide, by decide⟩

/-- C7 (amended): after any sequence of AddClientToGroup calls on
pairwise-distinct existing clients, starting from a manager with no
groups, every assigned client occurs in exactly one group (exactly
once), its Group back-reference points to a group containing it, and
every group's member list has length at most GroupSize. -/
theorem C7_membership (cis : List Nat) (w0 : World)
    (hg : w0.groups = []) (hnd : cis.Nodup)
    (hex : ∀ x ∈ cis, ∃ c, w0.clients.get? x = some c) :
    (∀ x ∈ cis,
      membershipCount ((cis.foldl addClientToGroup w0).groups) x = 1
      ∧ ∃ c gi g, ((cis.foldl addClientToGroup w0).clients).get? x = some c
          ∧ c.group = some gi
          ∧ ((cis.foldl addClientToGroup w0).groups).get? gi = some g
          ∧ x ∈ g.clients)
    ∧ ∀ g ∈ (cis.foldl addClientToGroup w0).groups, g.clients.length ≤ groupSize := by
  have h0 : ∀ x ∈ cis, membershipCount w0.groups x = 0 := by
    intro x hx
    rw [hg]
    rfl
  obtain ⟨h1, -, -, -⟩ := fold_assign cis w0 hnd h0 hex
  refine ⟨h1, ?_⟩
  have hsinv : sizesInv w0.groups := by
    rw [hg]
    exact ⟨fun x hx => absurd hx (List.not_mem_nil x),
      fun x hx => absurd hx (List.not_mem_nil x)⟩
  exact (foldl_sizesInv cis w0 hsinv).2

/-- C7 witness: two distinct clients assigned from an empty manager;
client 0 is in exactly one group with a correct back-reference. -/
theorem C7_witness :
    membershipCount ((([0, 1] : List Nat).foldl addClientToGroup exWorldW7).groups) 0 = 1
    ∧ ∃ c gi g, ((([0, 1] : List Nat).foldl addClientToGroup exWorldW7).clients).get? 0 = some c
        ∧ c.group = some gi
        ∧ ((([0, 1] : List Nat).foldl addClientToGroup exWorldW7).groups).get? gi = some g
        ∧ 0 ∈ g.clients :=
  (C7_membership [0, 1] exWorldW7 rfl (by decide)
    (by
      intro x hx
      simp at hx
      rcases hx with rfl | rfl
      · exact ⟨mkClient 0, rfl⟩
      · exact ⟨mkClient 1, rfl⟩)).1 0 (by decide)

end DNS
